import Mathlib

set_option maxRecDepth 8192

/-!
Verification of the `s3-rest.py` command-line front end of the
ugovaretto-codex/ceph-client repository, together with a spec-modelled
embedding of the signing engine (`s3v4_rest`) that the script calls but
whose source is not part of the checked tree.

Strings from the Python side are modelled as `List Char` (`Str`), so that
Python's `str.split`, `str.replace` and `dict(...)` can be embedded
faithfully and executed by the kernel.
-/

namespace S3Rest

/-- Python strings, modelled as lists of characters. -/
abbrev Str := List Char

/-! ### Python string primitives

`splitFirst sep s` splits `s` at the first occurrence of `sep`:
it returns the part before the separator and, when a separator was
found, the remainder after it. -/

def splitFirst (sep : Char) : Str → Str × Option Str
  | [] => ([], none)
  | c :: cs =>
    if c = sep then ([], some cs)
    else
      let r := splitFirst sep cs
      (c :: r.1, r.2)

/-- `pySplitAux sep m s` performs at most `m` splits, like Python's
`s.split(sep, m)` for a one-character separator `sep`. -/
def pySplitAux (sep : Char) : Nat → Str → List Str
  | 0, s => [s]
  | m + 1, s =>
    match splitFirst sep s with
    | (a, none) => [a]
    | (a, some rest) => a :: pySplitAux sep m rest

/-- Python `s.split(sep)` (unlimited splits): `s.length` splits always
suffice because every split consumes one separator character. -/
def pySplit (sep : Char) (s : Str) : List Str :=
  pySplitAux sep s.length s

/-- Python `s.split(sep, maxsplit)`. -/
def pySplitMax (sep : Char) (maxsplit : Nat) (s : Str) : List Str :=
  pySplitAux sep maxsplit s

/-- `";".join(fragments)`: fragments interleaved with the separator. -/
def joinSep (sep : Char) : List Str → Str
  | [] => []
  | [f] => f
  | f :: fs => f ++ sep :: joinSep sep fs

/-- One element of the sequence handed to Python's `dict(...)`: only a
two-element list is accepted, anything else raises `ValueError`. -/
def toPair : List Str → Option (Str × Str)
  | [k, v] => some (k, v)
  | _ => none

/-- Python `dict(listOfLists)`: fails (returns `none`) as soon as one
element is not a two-element list; otherwise keeps the pairs in order.
Lookups on the resulting association list are last-wins, matching
Python's dictionary semantics for duplicate keys. -/
def pyDict (xs : List (List Str)) : Option (List (Str × Str)) :=
  xs.mapM toPair

/-- Dictionary lookup with Python semantics (the last binding of a key
wins). -/
def dLookup (d : List (Str × Str)) (k : Str) : Option Str :=
  d.reverse.lookup k

/-- Python `d.update(u)`: as far as lookups are concerned, the updated
dictionary behaves exactly like the concatenation `d ++ u` under
last-wins lookup. -/
def pyUpdate (d u : List (Str × Str)) : List (Str × Str) :=
  d ++ u

/-! ### Python `str.replace` -/

/-- Auxiliary for `pyReplace`, for a non-empty pattern: scan left to
right, replacing non-overlapping occurrences.  The fuel only bounds the
recursion; every step consumes at least one character, so fuel equal to
the string length always suffices. -/
def replaceAux (pat rep : Str) : Nat → Str → Str
  | _, [] => []
  | 0, s => s
  | fuel + 1, c :: cs =>
    if pat.isPrefixOf (c :: cs) then
      rep ++ replaceAux pat rep fuel ((c :: cs).drop pat.length)
    else
      c :: replaceAux pat rep fuel cs

/-- Python `s.replace(pat, rep)`.  For the empty pattern Python inserts
`rep` before every character and at the end. -/
def pyReplace (s pat rep : Str) : Str :=
  if pat = [] then
    rep ++ s.flatMap (fun c => c :: rep)
  else
    replaceAux pat rep s.length s

/-- Keys of a Python dict built from a pair list: first-occurrence
order, duplicates removed. -/
def uniqKeys (ks : List Str) : List Str :=
  ks.foldl (fun acc k => if k ∈ acc then acc else acc ++ [k]) []

/-- `dict(pairs).items()`: keys in first-insertion order, each bound to
its last assigned value. -/
def pyDictItems (ps : List (Str × Str)) : List (Str × Str) :=
  (uniqKeys (ps.map Prod.fst)).filterMap fun k => (dLookup ps k).map fun v => (k, v)

/-- Python truthiness of an optional string: `None` and `""` are falsy. -/
def pyTruthy : Option Str → Bool
  | none => false
  | some s => decide (s ≠ [])

/-! ### Command-line splitting (src/s3-rest.py lines 127-132)

`params = dict([x.split("=", 1) for x in args.parameters.split(";")])`
when `args.parameters` is truthy, else `None`; the headers argument is
identical with `":"` in place of `"="`.  A fragment without the
separator makes `dict` raise `ValueError`, modelled as `.error ()`. -/

def parseKVArg (sep : Char) (arg : Option Str) : Except Unit (Option (List (Str × Str))) :=
  match arg with
  | none => .ok none
  | some s =>
    if s = [] then .ok none
    else
      match pyDict (((pySplit ';' s).map (pySplitMax sep 1))) with
      | some d => .ok (some d)
      | none => .error ()

/-- `args.parameters` splitting: `;`-separated `key=value`, one split per
fragment. -/
def parseParameters (arg : Option Str) : Except Unit (Option (List (Str × Str))) :=
  parseKVArg '=' arg

/-- `args.headers` splitting: `;`-separated `key:value`, one split per
fragment. -/
def parseHeadersArg (arg : Option Str) : Except Unit (Option (List (Str × Str))) :=
  parseKVArg ':' arg

/-! ### Override-configuration merge (src/s3-rest.py lines 154-156)

`oc = dict([x.split("=", 2) for x in args.override_config.split(";")])`
followed by `config.update(oc)`.  Note the `maxsplit=2`: a fragment
whose value contains an `=` yields a three-element list and `dict`
raises. -/

def parseOverrideConfig (s : Str) : Option (List (Str × Str)) :=
  pyDict ((pySplit ';' s).map (pySplitMax '=' 2))

/-- The whole override block: skipped for a falsy argument, otherwise
parse then `config.update(oc)`. -/
def mergeOverride (config : List (Str × Str)) (arg : Option Str) :
    Except Unit (List (Str × Str)) :=
  match arg with
  | none => .ok config
  | some s =>
    if s = [] then .ok config
    else
      match parseOverrideConfig s with
      | some oc => .ok (pyUpdate config oc)
      | none => .error ()

/-! ### Payload substitution (src/s3-rest.py lines 138-148)

When the payload is a file name and substitution parameters are given,
the file is read, newlines are stripped, each `key` is replaced by
`value`, and the result becomes an inline payload
(`payload_is_file = False`).  The file system is modelled as a function
from file name to content. -/

def applySubsts (sd : List (Str × Str)) (content : Str) : Str :=
  sd.foldl (fun acc kv => pyReplace acc kv.1 kv.2) content

def substBlock (fs : Str → Str) (payloadArg : Option Str) (payloadIsFile : Bool)
    (substArg : Option Str) : Except Unit (Option Str × Bool) :=
  if pyTruthy payloadArg && payloadIsFile && pyTruthy substArg then
    match payloadArg, substArg with
    | some p, some sp =>
      match pyDict ((pySplit ';' sp).map (pySplit '=')) with
      | some sd =>
        .ok (some (applySubsts (pyDictItems sd) (pyReplace (fs p) ['\n'] [])), false)
      | none => .error ()
    | _, _ => .ok (payloadArg, payloadIsFile)
  else .ok (payloadArg, payloadIsFile)

/-! ### Response routing (src/s3-rest.py lines 60-61 and 172-178) -/

/-- `ok(code)` from the script. -/
def ok (code : Nat) : Bool :=
  200 ≤ code && code < 300

/-- Output channels of the process. -/
inductive Channel where
  | stdout
  | stderr
  deriving DecidableEq, Repr

/-- The response-summary lines printed by the script: status and headers
always (when not muted), the body only when non-empty, all on
`sys.stdout` when `ok(status)` and on `sys.stderr` otherwise.  With
`--mute` the block is skipped entirely. -/
def summaryLines (mute : Bool) (status : Nat) (headersStr bodyText : String) :
    List (Channel × String) :=
  if mute then []
  else
    let outfile := if ok status then Channel.stdout else Channel.stderr
    [(outfile, "Response status: " ++ toString status),
     (outfile, "Response headers: " ++ headersStr)] ++
      (if bodyText ≠ "" then [(outfile, "Response body: " ++ bodyText)] else [])

/-! ### Header-keys search (src/s3-rest.py lines 197-205)

Response headers live in a case-insensitive dictionary (the `requests`
library's `CaseInsensitiveDict`): membership and indexing compare keys
after lower-casing.  The block prints `key: value` lines; we model the
printed lines as a list of pairs. -/

def lowerStr (s : Str) : Str :=
  s.map Char.toLower

/-- Case-insensitive lookup in the response-header mapping. -/
def ciGet (hs : List (Str × Str)) (k : Str) : Option Str :=
  (hs.find? fun p => lowerStr p.1 == lowerStr k).map Prod.snd

/-- `if k in response.headers.keys(): print(f"{k}: {headers[k]}")`. -/
def lookupLine (hs : List (Str × Str)) (k : Str) : Option (Str × Str) :=
  match ciGet hs k with
  | some v => some (k, v)
  | none => none

/-- The `--search-headers-keys` block.  When the argument contains a
comma it is split into a list of names; otherwise `keys` stays a plain
string, and when that single name is absent from the headers the
`for k in keys` loop iterates over the *characters* of the string. -/
def headerKeysBlock (headerKeys : Option Str) (headers : List (Str × Str)) :
    List (Str × Str) :=
  match headerKeys with
  | none => []
  | some hk =>
    if hk = [] ∨ headers = [] then []
    else if ',' ∈ hk then
      (pySplit ',' hk).filterMap (lookupLine headers)
    else
      match lookupLine headers hk with
      | some line => [line]
      | none => hk.filterMap fun c => lookupLine headers [c]

/-! ### XML model (src/s3-rest.py lines 190-195)

The script parses the response body with `xml.etree.ElementTree` and
runs `findall` with the namespace mapping
`{"aws": "http://s3.amazonaws.com/doc/2006-03-01/"}`.  We embed the
fragment of `ElementTree` the script exercises: elements with tag,
attributes, leading text and child elements; `fromstring` parsing a
document with an optional XML declaration and a default-`xmlns`
declaration (tags are expanded to the `{uri}tag` form, following
`ElementTree`); and the restricted XPath subset `.`, `//`, and
namespace-prefixed tag steps.  Malformed input makes `fromstring` fail,
exactly as `ET.fromstring` raises `ParseError`. -/

inductive XElem where
  | mk (tag : Str) (attrs : List (Str × Str)) (text : Option Str) (children : List XElem)

def XElem.tag : XElem → Str
  | .mk t _ _ _ => t

def XElem.text : XElem → Option Str
  | .mk _ _ tx _ => tx

def XElem.children : XElem → List XElem
  | .mk _ _ _ ch => ch

mutual

/-- Document-order (preorder) traversal of an element. -/
def preorderE : XElem → List XElem
  | .mk t a tx ch => .mk t a tx ch :: preorderL ch

/-- Document-order traversal of a forest. -/
def preorderL : List XElem → List XElem
  | [] => []
  | e :: es => preorderE e ++ preorderL es

end

/-- The opening-brace character used in expanded `{uri}tag` names. -/
def lbrace : Char := Char.ofNat 123

/-- The closing-brace character used in expanded `{uri}tag` names. -/
def rbrace : Char := Char.ofNat 125

/-- Expanded Clark-notation tag, as built by `ElementTree`. -/
def clarkTag (uri tagName : Str) : Str :=
  lbrace :: uri ++ rbrace :: tagName

def isXmlWs (c : Char) : Bool :=
  c = ' ' || c = '\n' || c = '\t' || c = '\r'

def isNameChar (c : Char) : Bool :=
  c.isAlphanum || c = '-' || c = '_' || c = '.' || c = ':'

def skipWs (s : Str) : Str :=
  s.dropWhile isXmlWs

def xmlnsKey : Str := "xmlns".toList

/-- Attribute-list parsing: `name="value"` pairs separated by
whitespace, stopping at `>` or `/>`.  Namespace-prefix declarations
other than the default `xmlns` are outside the modelled fragment. -/
def parseAttrs (fuel : Nat) (s : Str) : Except String (List (Str × Str) × Str) :=
  match fuel with
  | 0 => .error "not well-formed: attribute fuel"
  | fuel + 1 =>
    let s1 := skipWs s
    match s1 with
    | [] => .ok ([], [])
    | c :: _ =>
      if isNameChar c then
        let nm := s1.takeWhile isNameChar
        let r1 := s1.dropWhile isNameChar
        if ':' ∈ nm ∧ nm ≠ xmlnsKey then .error "unsupported namespace declaration"
        else
          match r1 with
          | '=' :: '"' :: r2 =>
            let v := r2.takeWhile (· ≠ '"')
            let r3 := r2.dropWhile (· ≠ '"')
            match r3 with
            | '"' :: r4 =>
              match parseAttrs fuel r4 with
              | .ok (rest, tail) => .ok ((nm, v) :: rest, tail)
              | .error e => .error e
            | _ => .error "not well-formed: unterminated attribute value"
          | _ => .error "not well-formed: malformed attribute"
      else .ok ([], s1)

/-- Tag expansion with the default namespace in scope; a prefixed tag
is unbound in the modelled fragment, as `ElementTree` reports for an
undeclared prefix. -/
def expandTag (ns : Option Str) (t : Str) : Except String Str :=
  if ':' ∈ t then .error "not well-formed: unbound prefix"
  else
    match ns with
    | none => .ok t
    | some uri => .ok (clarkTag uri t)

/-- Parse a maximal sequence of sibling elements, stopping at `</` or at
the end of input; tail text between siblings is consumed and dropped
(the script never reads `.tail`).  `fuel` bounds the recursion; every
recursive call consumes at least one input character, so
`input length + 1` is always enough. -/
def parseNodes (fuel : Nat) (ns : Option Str) (s : Str) :
    Except String (List XElem × Str) :=
  match fuel with
  | 0 => .error "not well-formed: element fuel"
  | fuel + 1 =>
    match s with
    | '<' :: '/' :: _ => .ok ([], s)
    | '<' :: r0 =>
      let nm := r0.takeWhile isNameChar
      let r1 := r0.dropWhile isNameChar
      if nm = [] then .error "not well-formed: bad tag name"
      else
        match parseAttrs (r1.length + 1) r1 with
        | .error e => .error e
        | .ok (attrs, r2) =>
          let nsHere := match List.lookup xmlnsKey attrs with
            | some uri => some uri
            | none => ns
          let attrsKept := attrs.filter fun p => p.1 ≠ xmlnsKey
          match expandTag nsHere nm with
          | .error e => .error e
          | .ok tg =>
            match r2 with
            | '/' :: '>' :: r3 =>
              match parseNodes fuel ns r3 with
              | .error e => .error e
              | .ok (sibs, r4) => .ok (.mk tg attrsKept none [] :: sibs, r4)
            | '>' :: r3 =>
              let txt := r3.takeWhile (· ≠ '<')
              let r4 := r3.dropWhile (· ≠ '<')
              match parseNodes fuel nsHere r4 with
              | .error e => .error e
              | .ok (kids, r5) =>
                match r5 with
                | '<' :: '/' :: r6 =>
                  let cnm := r6.takeWhile isNameChar
                  let r7 := skipWs (r6.dropWhile isNameChar)
                  match r7 with
                  | '>' :: r8 =>
                    if cnm = nm then
                      let e := XElem.mk tg attrsKept
                        (if txt = [] then none else some txt) kids
                      match parseNodes fuel ns (r8.dropWhile (· ≠ '<')) with
                      | .error er => .error er
                      | .ok (sibs, r9) => .ok (e :: sibs, r9)
                    else .error "not well-formed: mismatched tag"
                  | _ => .error "not well-formed: malformed closing tag"
                | _ => .error "not well-formed: unexpected end of data"
            | _ => .error "not well-formed: malformed start tag"
    | _ => .ok ([], s)

/-- Skip an initial `<?xml ... ?>` processing instruction. -/
def dropPIClose : Str → Except String Str
  | [] => .error "not well-formed: unterminated processing instruction"
  | '?' :: '>' :: r => .ok r
  | _ :: r => dropPIClose r

def dropProlog (s : Str) : Except String Str :=
  match s with
  | '<' :: '?' :: r => dropPIClose r
  | _ => .ok s

/-- `ET.fromstring`: exactly one root element, nothing but whitespace
around it. -/
def fromstring (s : Str) : Except String XElem :=
  match dropProlog (skipWs s) with
  | .error e => .error e
  | .ok s1 =>
    let s2 := skipWs s1
    match parseNodes (s2.length + 1) none s2 with
    | .error e => .error e
    | .ok (es, rest) =>
      match es, skipWs rest with
      | [e], [] => .ok e
      | [], _ => .error "not well-formed: no element found"
      | _, _ => .error "not well-formed: junk after document element"

/-! #### The restricted XPath of `Element.findall` -/

inductive Step where
  | self
  | descendant (t : Str)
  | child (t : Str)

/-- Resolve one tag token against the namespace mapping, expanding a
`prefix:tag` token to Clark notation; an unknown prefix is a syntax
error, as in `ElementPath`. -/
def resolveTag (ns : List (Str × Str)) (tok : Str) : Except String Str :=
  if ':' ∈ tok then
    match splitFirst ':' tok with
    | (pfx, some localName) =>
      match List.lookup pfx ns with
      | some uri => .ok (clarkTag uri localName)
      | none => .error "prefix not found"
    | (_, none) => .error "invalid path token"
  else .ok tok

def compileSteps (ns : List (Str × Str)) : List Str → Except String (List Step)
  | [] => .ok []
  | tok :: rest =>
    if tok = ['.'] then
      match compileSteps ns rest with
      | .ok s => .ok (.self :: s)
      | .error e => .error e
    else if tok = [] then
      match rest with
      | [] => .error "path cannot end with //"
      | t :: rest2 =>
        if t = [] ∨ t = ['.'] then .error "invalid descendant"
        else
          match resolveTag ns t with
          | .error e => .error e
          | .ok tg =>
            match compileSteps ns rest2 with
            | .ok s => .ok (.descendant tg :: s)
            | .error e => .error e
    else
      match resolveTag ns tok with
      | .error e => .error e
      | .ok tg =>
        match compileSteps ns rest with
        | .ok s => .ok (.child tg :: s)
        | .error e => .error e

/-- Compile a `findall` path; an absolute path is rejected on an
element, as in `ElementPath`. -/
def compilePath (ns : List (Str × Str)) (q : Str) : Except String (List Step) :=
  match pySplit '/' q with
  | [] :: _ => .error "cannot use absolute path on element"
  | toks => compileSteps ns toks

def childrenTagged (t : Str) (e : XElem) : List XElem :=
  e.children.filter fun c => c.tag == t

/-- Proper descendants in document order, as `elem.iter()` minus the
element itself. -/
def properDescendants (e : XElem) : List XElem :=
  preorderL e.children

def evalStep (ctx : List XElem) : Step → List XElem
  | .self => ctx
  | .child t => ctx.flatMap (childrenTagged t)
  | .descendant t => ctx.flatMap fun e => (properDescendants e).filter fun d => d.tag == t

/-- `element.findall(path, ns)` over a compiled path. -/
def evalPath (steps : List Step) (ctx : List XElem) : List XElem :=
  steps.foldl evalStep ctx

/-- The namespace mapping hard-coded in the script. -/
def awsNs : List (Str × Str) :=
  [("aws".toList, "http://s3.amazonaws.com/doc/2006-03-01/".toList)]

inductive XmlErr where
  | parseError (msg : String)
  | queryError (msg : String)
  deriving DecidableEq, Repr

/-- The `--xml-query` block: skipped when query or body is falsy;
otherwise `ET.fromstring(body)` (raising on malformed XML) and then
`root.findall(query, ns)` (raising on an invalid expression), printing
`i.text` for every matched element. -/
def xmlQueryBlock (query : Option Str) (body : Str) :
    Except XmlErr (List (Option Str)) :=
  match query with
  | none => .ok []
  | some q =>
    if q = [] ∨ body = [] then .ok []
    else
      match fromstring body with
      | .error e => .error (.parseError e)
      | .ok root =>
        match compilePath awsNs q with
        | .error e => .error (.queryError e)
        | .ok steps => .ok ((evalPath steps [root]).map XElem.text)

/-! ### Spec-modelled signing engine

`s3-rest.py` imports `s3v4_rest` and calls `s3.send_s3_request`; that
module's source is not part of the checked tree.  The definitions below
are modelled from the spec: §3 (RequestSpec, Credentials,
SigningKeyChain), §4.1 (CanonicalRequestBuilder), §4.2
(SigningKeyDeriver), §4.3 (RequestSigner) and §4.4 (Dispatcher with
endpoint/proxy divergence).  SHA-256 and HMAC-SHA-256 are embedded in
full so the whole chain is executable. -/

namespace Sha256

/-- Truncation to a 32-bit word. -/
def w32 (n : Nat) : Nat := n % 4294967296

/-- Right rotation of a 32-bit word. -/
def rotr (n x : Nat) : Nat := x / 2 ^ n + x % 2 ^ n * 2 ^ (32 - n)

/-- Logical right shift. -/
def shr (n x : Nat) : Nat := x / 2 ^ n

/-- Bitwise complement of a 32-bit word. -/
def bnot (x : Nat) : Nat := 4294967295 - x

def ch (x y z : Nat) : Nat := (x &&& y) ^^^ (bnot x &&& z)

def maj (x y z : Nat) : Nat := (x &&& y) ^^^ (x &&& z) ^^^ (y &&& z)

def bsig0 (x : Nat) : Nat := rotr 2 x ^^^ rotr 13 x ^^^ rotr 22 x

def bsig1 (x : Nat) : Nat := rotr 6 x ^^^ rotr 11 x ^^^ rotr 25 x

def ssig0 (x : Nat) : Nat := rotr 7 x ^^^ rotr 18 x ^^^ shr 3 x

def ssig1 (x : Nat) : Nat := rotr 17 x ^^^ rotr 19 x ^^^ shr 10 x

/-- The 64 round constants (decimal). -/
def K : List Nat :=
  [1116352408, 1899447441, 3049323471, 3921009573,
   961987163, 1508970993, 2453635748, 2870763221,
   3624381080, 310598401, 607225278, 1426881987,
   1925078388, 2162078206, 2614888103, 3248222580,
   3835390401, 4022224774, 264347078, 604807628,
   770255983, 1249150122, 1555081692, 1996064986,
   2554220882, 2821834349, 2952996808, 3210313671,
   3336571891, 3584528711, 113926993, 338241895,
   666307205, 773529912, 1294757372, 1396182291,
   1695183700, 1986661051, 2177026350, 2456956037,
   2730485921, 2820302411, 3259730800, 3345764771,
   3516065817, 3600352804, 4094571909, 275423344,
   430227734, 506948616, 659060556, 883997877,
   958139571, 1322822218, 1537002063, 1747873779,
   1955562222, 2024104815, 2227730452, 2361852424,
   2428436474, 2756734187, 3204031479, 3329325298]

/-- The initial hash state (decimal). -/
def initH : List Nat :=
  [1779033703, 3144134277, 1013904242, 2773480762,
   1359893119, 2600822924, 528734635, 1541459225]

/-- Big-endian bytes of a 64-bit value. -/
def toBE64 (n : Nat) : List Nat :=
  (List.range 8).map fun i => n / 2 ^ (8 * (7 - i)) % 256

/-- Big-endian bytes of a 32-bit word. -/
def toBE32 (n : Nat) : List Nat :=
  (List.range 4).map fun i => n / 2 ^ (8 * (3 - i)) % 256

/-- SHA-256 padding: a `0x80` byte, zeros, then the bit length. -/
def pad (msg : List Nat) : List Nat :=
  msg ++ 0x80 :: List.replicate ((64 - (msg.length + 9) % 64) % 64) 0 ++
    toBE64 (msg.length * 8)

/-- Split into 64-byte blocks (fuel-driven; the input of `pad` is a
multiple of 64 bytes long). -/
def chunksAux : Nat → List Nat → List (List Nat)
  | 0, _ => []
  | _ + 1, [] => []
  | fuel + 1, l => l.take 64 :: chunksAux fuel (l.drop 64)

def chunks (l : List Nat) : List (List Nat) :=
  chunksAux l.length l

/-- The `i`-th big-endian 32-bit word of a block. -/
def word (c : List Nat) (i : Nat) : Nat :=
  c.getD (4 * i) 0 * 2 ^ 24 + c.getD (4 * i + 1) 0 * 2 ^ 16 +
    c.getD (4 * i + 2) 0 * 2 ^ 8 + c.getD (4 * i + 3) 0

/-- Message-schedule extension from 16 to 64 words. -/
def buildW (init16 : List Nat) : List Nat :=
  (List.range 48).foldl
    (fun ws _ =>
      ws ++ [w32 (ssig1 (ws.getD (ws.length - 2) 0) + ws.getD (ws.length - 7) 0 +
        ssig0 (ws.getD (ws.length - 15) 0) + ws.getD (ws.length - 16) 0)])
    init16

/-- One compression round. -/
def round (st : List Nat) (kw : Nat × Nat) : List Nat :=
  match st with
  | [a, b, c, d, e, f, g, h] =>
    let t1 := w32 (h + bsig1 e + ch e f g + kw.1 + kw.2)
    let t2 := w32 (bsig0 a + maj a b c)
    [w32 (t1 + t2), a, b, c, w32 (d + t1), e, f, g]
  | other => other

/-- Compression of one 64-byte block into the running state. -/
def compress (st : List Nat) (chunk : List Nat) : List Nat :=
  let ws := buildW ((List.range 16).map (word chunk))
  let st2 := (K.zip ws).foldl round st
  (st.zip st2).map fun p => w32 (p.1 + p.2)

/-- SHA-256 of a byte sequence, as 32 bytes. -/
def sha256 (msg : List Nat) : List Nat :=
  (((chunks (pad msg)).foldl compress initH).map toBE32).flatten

/-- HMAC-SHA-256 (block size 64 bytes). -/
def hmac (key msg : List Nat) : List Nat :=
  let k0 := if 64 < key.length then sha256 key else key
  let kp := k0 ++ List.replicate (64 - k0.length) 0
  sha256 ((kp.map fun b => b ^^^ 0x5c) ++
    sha256 ((kp.map fun b => b ^^^ 0x36) ++ msg))

end Sha256

/-- ASCII bytes of a modelled string. -/
def strBytes (s : Str) : List Nat := s.map Char.toNat

/-- Lower-case hex digit. -/
def hexDigit (n : Nat) : Char :=
  if n < 10 then Char.ofNat (48 + n) else Char.ofNat (87 + n)

/-- Lower-case hex encoding of a byte sequence. -/
def hexBytes (bs : List Nat) : Str :=
  bs.flatMap fun b => [hexDigit (b / 16), hexDigit (b % 16)]

/-- Upper-case hex digit, for percent-encoding. -/
def hexDigitU (n : Nat) : Char :=
  if n < 10 then Char.ofNat (48 + n) else Char.ofNat (55 + n)

/-- Unreserved characters of the signing spec: letters, digits, and
`-._~`. -/
def isUnreserved (c : Char) : Bool :=
  c.isAlphanum || c = '-' || c = '.' || c = '_' || c = '~'

/-- Strict percent-encoding over the unreserved set. -/
def uriEncode (s : Str) : Str :=
  s.flatMap fun c =>
    if isUnreserved c then [c]
    else ['%', hexDigitU (c.toNat / 16), hexDigitU (c.toNat % 16)]

/-- Lexicographic comparison by code point, as Python `sorted` compares
strings. -/
def strLe : Str → Str → Bool
  | [], _ => true
  | _ :: _, [] => false
  | a :: as_, b :: bs => if a = b then strLe as_ bs else decide (a.toNat < b.toNat)

/-- Stable insertion into a sorted list. -/
def insertBy (le : α → α → Bool) (x : α) : List α → List α
  | [] => [x]
  | y :: ys => if le x y && !le y x then x :: y :: ys else y :: insertBy le x ys

/-- Stable insertion sort. -/
def sortBy (le : α → α → Bool) : List α → List α
  | [] => []
  | x :: xs => insertBy le x (sortBy le xs)

/-- Decimal digits of a natural number. -/
def natStr (n : Nat) : Str := (toString n).toList

structure Credentials where
  accessKey : Str
  secretKey : Str
  region : Str
  service : Str
  deriving DecidableEq

/-- Signing date: calendar-day stamp and full timestamp. -/
structure SigningDate where
  dateStamp : Str
  amzDate : Str
  deriving DecidableEq

structure RequestSpec where
  method : Str
  bucketName : Option Str
  keyName : Option Str
  parameters : List (Str × Str)
  headers : List (Str × Str)
  payload : Str
  signPayload : Bool
  deriving DecidableEq

structure Config where
  accessKey : Str
  secretKey : Str
  protocol : Str
  host : Str
  port : Nat
  region : Str
  service : Str
  deriving DecidableEq

/-- The signed host header value of a configured endpoint. -/
def hostHeaderOf (cfg : Config) : Str :=
  cfg.host ++ ':' :: natStr cfg.port

/-- Endpoint URL of a configuration. -/
def endpointOf (cfg : Config) : Str :=
  cfg.protocol ++ "://".toList ++ hostHeaderOf cfg

/-- Canonical URI: `/` followed by the path-joined bucket and key. -/
def canonicalURI (spec : RequestSpec) : Str :=
  '/' :: (match spec.bucketName, spec.keyName with
    | none, _ => []
    | some b, none => uriEncode b
    | some b, some k => uriEncode b ++ '/' :: uriEncode k)

/-- Canonical query string: percent-encoded pairs sorted by encoded
key; an empty value is kept as `key=`. -/
def canonicalQuery (params : List (Str × Str)) : Str :=
  joinSep '&'
    ((sortBy strLe (params.map fun p => uriEncode p.1 ++ '=' :: uriEncode p.2)))

def isSpaceChar (c : Char) : Bool :=
  c = ' ' || c = '\t'

/-- Collapse internal whitespace runs to single spaces. -/
def collapseWsAux : Bool → Str → Str
  | _, [] => []
  | prev, c :: cs =>
    if isSpaceChar c then
      if prev then collapseWsAux true cs else ' ' :: collapseWsAux true cs
    else c :: collapseWsAux false cs

/-- Header-value normalization: trim, then collapse inner whitespace. -/
def normValue (s : Str) : Str :=
  collapseWsAux false ((s.dropWhile isSpaceChar).reverse.dropWhile isSpaceChar).reverse

/-- The headers entering the canonical form: the host header plus the
additional headers, names lower-cased, values normalized, sorted by
name. -/
def signedHeaderPairs (cfg : Config) (spec : RequestSpec) : List (Str × Str) :=
  sortBy (fun a b => strLe a.1 b.1)
    (("host".toList, hostHeaderOf cfg) ::
      spec.headers.map fun p => (lowerStr p.1, normValue p.2))

/-- Canonical headers block: `name:value` lines. -/
def canonicalHeaders (cfg : Config) (spec : RequestSpec) : Str :=
  ((signedHeaderPairs cfg spec).map fun p => p.1 ++ ':' :: p.2 ++ ['\n']).flatten

/-- The semicolon-joined signed-header list. -/
def signedHeadersList (cfg : Config) (spec : RequestSpec) : Str :=
  joinSep ';' ((signedHeaderPairs cfg spec).map Prod.fst)

/-- Sentinel for an unsigned payload. -/
def unsignedSentinel : Str := "UNSIGNED-PAYLOAD".toList

/-- Payload hash: content hash when signing is enabled, the sentinel
otherwise. -/
def payloadHash (spec : RequestSpec) : Str :=
  if spec.signPayload then hexBytes (Sha256.sha256 (strBytes spec.payload))
  else unsignedSentinel

/-- CanonicalRequestBuilder (§4.1): the fixed canonical string. -/
def canonicalRequest (cfg : Config) (spec : RequestSpec) : Str :=
  spec.method ++ '\n' ::
    canonicalURI spec ++ '\n' ::
    canonicalQuery spec.parameters ++ '\n' ::
    canonicalHeaders cfg spec ++ '\n' ::
    signedHeadersList cfg spec ++ '\n' ::
    payloadHash spec

/-- SigningKeyDeriver (§3, §4.2): the four-stage HMAC chain
`HMAC(HMAC(HMAC(HMAC("AWS4"+secret, date), region), service),
"aws4_request")`. -/
def signingKey (creds : Credentials) (date : SigningDate) : List Nat :=
  Sha256.hmac
    (Sha256.hmac
      (Sha256.hmac
        (Sha256.hmac (strBytes ("AWS4".toList ++ creds.secretKey))
          (strBytes date.dateStamp))
        (strBytes creds.region))
      (strBytes creds.service))
    (strBytes "aws4_request".toList)

/-- Credential scope. -/
def scopeOf (creds : Credentials) (date : SigningDate) : Str :=
  date.dateStamp ++ '/' :: creds.region ++ '/' :: creds.service ++
    '/' :: "aws4_request".toList

/-- The string to sign (§4.3): algorithm, timestamp, scope, canonical
request hash. -/
def stringToSign (cfg : Config) (creds : Credentials) (date : SigningDate)
    (spec : RequestSpec) : Str :=
  "AWS4-HMAC-SHA256".toList ++ '\n' :: date.amzDate ++ '\n' ::
    scopeOf creds date ++ '\n' ::
    hexBytes (Sha256.sha256 (strBytes (canonicalRequest cfg spec)))

/-- RequestSigner (§4.3): the final hex-encoded signature. -/
def signature (cfg : Config) (creds : Credentials) (date : SigningDate)
    (spec : RequestSpec) : Str :=
  hexBytes (Sha256.hmac (signingKey creds date)
    (strBytes (stringToSign cfg creds date spec)))

/-- The `Authorization` header value. -/
def authHeader (cfg : Config) (creds : Credentials) (date : SigningDate)
    (spec : RequestSpec) : Str :=
  "AWS4-HMAC-SHA256 Credential=".toList ++ creds.accessKey ++ '/' ::
    scopeOf creds date ++ ", SignedHeaders=".toList ++
    signedHeadersList cfg spec ++ ", Signature=".toList ++
    signature cfg creds date spec

/-- Credentials as carried by a configuration. -/
def credentialsOf (cfg : Config) : Credentials :=
  { accessKey := cfg.accessKey, secretKey := cfg.secretKey,
    region := cfg.region, service := cfg.service }

/-- What the Dispatcher puts on the wire. -/
structure DispatchRecord where
  transmitUrl : Str
  hostHeader : Str
  canonical : Str
  sig : Str
  authorization : Str
  deriving DecidableEq

/-- Modelled from the spec: `s3v4_rest.send_s3_request` (§4.4
Dispatcher), whose source is not in the checked tree.  Every signed
component (host header, canonical request, signature) is computed from
the configured endpoint; the transmit URL uses the proxy endpoint when
one is supplied. -/
def send_s3_request (cfg : Config) (spec : RequestSpec) (date : SigningDate)
    (proxyEndpoint : Option Str) : DispatchRecord :=
  { transmitUrl :=
      (match proxyEndpoint with
       | some p => p
       | none => endpointOf cfg) ++ canonicalURI spec
    hostHeader := hostHeaderOf cfg
    canonical := canonicalRequest cfg spec
    sig := signature cfg (credentialsOf cfg) date spec
    authorization := authHeader cfg (credentialsOf cfg) date spec }

/-! ### Concrete fixtures used by the claims -/

/-- The S3 document namespace URI bound to the `aws` prefix. -/
def awsUri : Str := "http://s3.amazonaws.com/doc/2006-03-01/".toList

def bucketTag : Str := clarkTag awsUri "Bucket".toList

def nameTag : Str := clarkTag awsUri "Name".toList

def awsQuery : Str := ".//aws:Bucket/aws:Name".toList

/-- The compiled form of `.//aws:Bucket/aws:Name`. -/
def lbrSteps : List Step := [.self, .descendant bucketTag, .child nameTag]

def ownerTag : Str := clarkTag awsUri "Owner".toList

def idTag : Str := clarkTag awsUri "ID".toList

def bucketsTag : Str := clarkTag awsUri "Buckets".toList

def creationTag : Str := clarkTag awsUri "CreationDate".toList

def lbrTag : Str := clarkTag awsUri "ListAllMyBucketsResult".toList

/-- A `Bucket` element with a `Name` child holding the bucket name. -/
def bucketElem (n : Str) : XElem :=
  .mk bucketTag [] none
    [.mk nameTag [] (some n) [],
     .mk creationTag [] (some "2020-01-01".toList) []]

/-- A `ListAllMyBucketsResult` document over a list of bucket names. -/
def lbrTree (names : List Str) : XElem :=
  .mk lbrTag [] none
    [.mk ownerTag [] none [.mk idTag [] (some "uv".toList) []],
     .mk bucketsTag [] none (names.map bucketElem)]

/-- A concrete `ListAllMyBucketsResult` response body. -/
def lbrBody : Str :=
  ("<?xml version=\"1.0\" encoding=\"UTF-8\"?>" ++
   "<ListAllMyBucketsResult xmlns=\"http://s3.amazonaws.com/doc/2006-03-01/\">" ++
   "<Owner><ID>uv</ID></Owner>" ++
   "<Buckets>" ++
   "<Bucket><Name>uv-bucket-1</Name><CreationDate>2020-01-01</CreationDate></Bucket>" ++
   "<Bucket><Name>uv-bucket-2</Name><CreationDate>2020-01-01</CreationDate></Bucket>" ++
   "</Buckets></ListAllMyBucketsResult>").toList

/-- A small concrete configuration for witnesses. -/
def cfg0 : Config :=
  { accessKey := "AK".toList, secretKey := "SK".toList,
    protocol := "http".toList, host := "localhost".toList, port := 8000,
    region := "us-east-1".toList, service := "s3".toList }

/-- A small concrete request for witnesses. -/
def spec0 : RequestSpec :=
  { method := "GET".toList, bucketName := some "uv-bucket-3".toList,
    keyName := none, parameters := [("versions".toList, [])], headers := [],
    payload := [], signPayload := false }

/-- A concrete signing date for witnesses. -/
def date0 : SigningDate :=
  { dateStamp := "20200101".toList, amzDate := "20200101T000000Z".toList }

/-! ### Splitting lemmas -/

theorem splitFirst_of_not_mem {sep : Char} {s : Str} (h : sep ∉ s) :
    splitFirst sep s = (s, none) := by
  induction s with
  | nil => rfl
  | cons c cs ih =>
    simp only [List.mem_cons, not_or] at h
    have hc : ¬ c = sep := fun hh => h.1 hh.symm
    simp [splitFirst, hc, ih h.2]

theorem splitFirst_append {sep : Char} {k rest : Str} (h : sep ∉ k) :
    splitFirst sep (k ++ sep :: rest) = (k, some rest) := by
  induction k with
  | nil => simp [splitFirst]
  | cons c cs ih =>
    simp only [List.mem_cons, not_or] at h
    have hc : ¬ c = sep := fun hh => h.1 hh.symm
    simp [splitFirst, hc, ih h.2]

theorem pySplitAux_of_not_mem {sep : Char} (m : Nat) {s : Str} (h : sep ∉ s) :
    pySplitAux sep m s = [s] := by
  cases m with
  | zero => rfl
  | succ m => simp [pySplitAux, splitFirst_of_not_mem h]

theorem joinSep_cons₂ (sep : Char) (f g : Str) (fs : List Str) :
    joinSep sep (f :: g :: fs) = f ++ sep :: joinSep sep (g :: fs) := rfl

theorem length_le_joinSep_length (sep : Char) :
    ∀ (f : Str) (fs : List Str), fs.length ≤ (joinSep sep (f :: fs)).length
  | _, [] => Nat.zero_le _
  | f, g :: gs => by
    rw [joinSep_cons₂]
    have := length_le_joinSep_length sep g gs
    simp only [List.length_append, List.length_cons]
    omega

theorem joinSep_ne_nil {sep : Char} {f : Str} (hf : f ≠ []) (fs : List Str) :
    joinSep sep (f :: fs) ≠ [] := by
  cases fs with
  | nil => simpa [joinSep]
  | cons g gs => rw [joinSep_cons₂]; simp [hf]

theorem pySplitAux_joinSep {sep : Char} :
    ∀ (f : Str) (fs : List Str), (∀ g ∈ f :: fs, sep ∉ g) →
      ∀ m, fs.length ≤ m → pySplitAux sep m (joinSep sep (f :: fs)) = f :: fs
  | f, [], hmem, m, _ => by
    simpa [joinSep] using pySplitAux_of_not_mem m (hmem f (by simp))
  | f, g :: gs, hmem, m + 1, hm => by
    rw [joinSep_cons₂]
    simp only [pySplitAux, splitFirst_append (hmem f (by simp))]
    rw [pySplitAux_joinSep g gs (fun x hx => hmem x (List.mem_cons_of_mem f hx)) m
      (by simp only [List.length_cons] at hm; omega)]
  | _, g :: gs, _, 0, hm => by simp at hm

theorem pySplit_joinSep {sep : Char} (f : Str) (fs : List Str)
    (hmem : ∀ g ∈ f :: fs, sep ∉ g) :
    pySplit sep (joinSep sep (f :: fs)) = f :: fs :=
  pySplitAux_joinSep f fs hmem _ (length_le_joinSep_length sep f fs)

/-- Splitting `key ++ sep ++ value` once yields `[key, value]`, even
when the value contains further separators. -/
theorem pySplitMax_one {sep : Char} {k v : Str} (hk : sep ∉ k) :
    pySplitMax sep 1 (k ++ sep :: v) = [k, v] := by
  simp [pySplitMax, pySplitAux, splitFirst_append hk]

/-- Splitting `key ++ sep ++ value` with `maxsplit = 2` yields
`[key, value]` when the value is separator-free... -/
theorem pySplitMax_two {sep : Char} {k v : Str} (hk : sep ∉ k) (hv : sep ∉ v) :
    pySplitMax sep 2 (k ++ sep :: v) = [k, v] := by
  simp [pySplitMax, pySplitAux, splitFirst_append hk, splitFirst_of_not_mem hv]

/-- ...but a second separator inside the value produces three fields. -/
theorem pySplitMax_two_overfull {sep : Char} {k a b : Str} (hk : sep ∉ k)
    (ha : sep ∉ a) :
    pySplitMax sep 2 (k ++ sep :: (a ++ sep :: b)) = [k, a, b] := by
  simp [pySplitMax, pySplitAux, splitFirst_append hk, splitFirst_append ha]

theorem pyDict_pairs (kvs : List (Str × Str)) :
    pyDict (kvs.map fun p => [p.1, p.2]) = some kvs := by
  induction kvs with
  | nil => rfl
  | cons p ps ih =>
    unfold pyDict at ih ⊢
    rw [List.map_cons, List.mapM_cons, show toPair [p.1, p.2] = some p from rfl, ih]
    rfl

/-! ### Dictionary-lookup lemmas -/

theorem lookup_append (k : Str) :
    ∀ (l1 l2 : List (Str × Str)),
      List.lookup k (l1 ++ l2) = (List.lookup k l1).or (List.lookup k l2)
  | [], l2 => by simp [List.lookup]
  | (a, b) :: l1, l2 => by
    by_cases h : k == a <;> simp [List.lookup, h, lookup_append k l1 l2]

theorem lookup_eq_none_iff (k : Str) :
    ∀ (l : List (Str × Str)), List.lookup k l = none ↔ k ∉ l.map Prod.fst
  | [] => by simp [List.lookup]
  | (a, b) :: l => by
    by_cases h : k == a
    · simp only [beq_iff_eq] at h
      subst h
      simp [List.lookup]
    · have hne : ¬ k = a := by simpa using h
      simp [List.lookup, h, lookup_eq_none_iff k l, hne]

theorem dLookup_append (d u : List (Str × Str)) (k : Str) :
    dLookup (d ++ u) k = (dLookup u k).or (dLookup d k) := by
  simp [dLookup, lookup_append]

theorem dLookup_eq_none_iff (u : List (Str × Str)) (k : Str) :
    dLookup u k = none ↔ k ∉ u.map Prod.fst := by
  rw [dLookup, lookup_eq_none_iff]
  simp

/-- Lookup in a Python-updated dictionary: overridden keys take the
override value, all other keys keep the old one. -/
theorem dLookup_pyUpdate (d u : List (Str × Str)) (k : Str) :
    dLookup (pyUpdate d u) k =
      if k ∈ u.map Prod.fst then dLookup u k else dLookup d k := by
  rw [pyUpdate, dLookup_append]
  by_cases h : k ∈ u.map Prod.fst
  · simp only [h, if_true]
    rcases ho : dLookup u k with _ | v
    · exact absurd ((dLookup_eq_none_iff u k).mp ho) (by simpa using h)
    · simp [Option.or]
  · simp [(dLookup_eq_none_iff u k).mpr h, Option.or, h]

/-! ### Parsing of joined `key/value` fragment lists -/

theorem fragments_semicolon_free {sep : Char} (hs : sep ≠ ';') (p : Str × Str)
    (ps : List (Str × Str))
    (hmem : ∀ q ∈ p :: ps, sep ∉ q.1 ∧ ';' ∉ q.1 ∧ ';' ∉ q.2) :
    ∀ g ∈ (p :: ps).map fun q => q.1 ++ sep :: q.2, ';' ∉ g := by
  intro g hg
  simp only [List.mem_map] at hg
  obtain ⟨q, hq, rfl⟩ := hg
  obtain ⟨_, h2, h3⟩ := hmem q hq
  simp only [List.mem_append, List.mem_cons, not_or]
  exact ⟨h2, Ne.symm hs, h3⟩

theorem pySplit_joinSep_fragments {sep : Char} (hs : sep ≠ ';') (p : Str × Str)
    (ps : List (Str × Str))
    (hmem : ∀ q ∈ p :: ps, sep ∉ q.1 ∧ ';' ∉ q.1 ∧ ';' ∉ q.2) :
    pySplit ';' (joinSep ';' ((p :: ps).map fun q => q.1 ++ sep :: q.2)) =
      (p :: ps).map fun q => q.1 ++ sep :: q.2 := by
  rw [List.map_cons]
  exact pySplit_joinSep _ _ (by simpa using fragments_semicolon_free hs p ps hmem)

theorem joinSep_fragments_ne_nil {sep : Char} (p : Str × Str)
    (ps : List (Str × Str)) :
    joinSep ';' ((p :: ps).map fun q => q.1 ++ sep :: q.2) ≠ [] := by
  rw [List.map_cons]
  exact joinSep_ne_nil (by simp) _

theorem parseKVArg_joinSep (sep : Char) (hs : sep ≠ ';') (p : Str × Str)
    (ps : List (Str × Str))
    (hmem : ∀ q ∈ p :: ps, sep ∉ q.1 ∧ ';' ∉ q.1 ∧ ';' ∉ q.2) :
    parseKVArg sep (some (joinSep ';' ((p :: ps).map fun q => q.1 ++ sep :: q.2))) =
      .ok (some (p :: ps)) := by
  simp only [parseKVArg]
  rw [if_neg (joinSep_fragments_ne_nil p ps)]
  rw [pySplit_joinSep_fragments hs p ps hmem, List.map_map]
  have hmap : List.map (pySplitMax sep 1 ∘ fun q : Str × Str => q.1 ++ sep :: q.2)
      (p :: ps) = List.map (fun q : Str × Str => [q.1, q.2]) (p :: ps) :=
    List.map_congr_left fun q hq => pySplitMax_one (hmem q hq).1
  rw [hmap, pyDict_pairs]

theorem parseOverrideConfig_joinSep (p : Str × Str) (ps : List (Str × Str))
    (hmem : ∀ q ∈ p :: ps, '=' ∉ q.1 ∧ '=' ∉ q.2 ∧ ';' ∉ q.1 ∧ ';' ∉ q.2) :
    parseOverrideConfig (joinSep ';' ((p :: ps).map fun q => q.1 ++ '=' :: q.2)) =
      some (p :: ps) := by
  have hmem' : ∀ q ∈ p :: ps, '=' ∉ q.1 ∧ ';' ∉ q.1 ∧ ';' ∉ q.2 :=
    fun q hq => ⟨(hmem q hq).1, (hmem q hq).2.2.1, (hmem q hq).2.2.2⟩
  unfold parseOverrideConfig
  rw [pySplit_joinSep_fragments (by decide) p ps hmem', List.map_map]
  have hmap : List.map (pySplitMax '=' 2 ∘ fun q : Str × Str => q.1 ++ '=' :: q.2)
      (p :: ps) = List.map (fun q : Str × Str => [q.1, q.2]) (p :: ps) :=
    List.map_congr_left fun q hq => pySplitMax_two (hmem q hq).1 (hmem q hq).2.1
  rw [hmap, pyDict_pairs]

/-! ### Claims C3, C10, C5 -/

/-- C3: splitting a `;`-separated string of `key=value` fragments
(command-line parameters), or of `key:value` fragments (headers),
produces a mapping that binds each fragment's key to the text after the
first separator of the fragment; a fragment `key=` binds `key` to the
empty string (pairs with empty second component are included in the
statement). -/
theorem claim_C3 (kvs hvs : List (Str × Str)) (p0 q0 : Str × Str)
    (hp : ∀ q ∈ p0 :: kvs, '=' ∉ q.1 ∧ ';' ∉ q.1 ∧ ';' ∉ q.2)
    (hq : ∀ q ∈ q0 :: hvs, ':' ∉ q.1 ∧ ';' ∉ q.1 ∧ ';' ∉ q.2) :
    parseParameters
        (some (joinSep ';' ((p0 :: kvs).map fun q => q.1 ++ '=' :: q.2))) =
      .ok (some (p0 :: kvs)) ∧
    parseHeadersArg
        (some (joinSep ';' ((q0 :: hvs).map fun q => q.1 ++ ':' :: q.2))) =
      .ok (some (q0 :: hvs)) :=
  ⟨parseKVArg_joinSep '=' (by decide) p0 kvs hp,
   parseKVArg_joinSep ':' (by decide) q0 hvs hq⟩

/-- Witness for C3 at `--parameters "versions=;acl=public"` and
`--headers "x-amz-acl:private"`: `versions=` binds the empty string. -/
theorem claim_C3_witness :
    parseParameters (some "versions=;acl=public".toList) =
      .ok (some [("versions".toList, []), ("acl".toList, "public".toList)]) ∧
    parseHeadersArg (some "x-amz-acl:private".toList) =
      .ok (some [("x-amz-acl".toList, "private".toList)]) :=
  claim_C3 [("acl".toList, "public".toList)] []
    ("versions".toList, ([] : Str)) ("x-amz-acl".toList, "private".toList)
    (by decide) (by decide)

/-- C10: the override-configuration parser splits each entry on `=`
with at most two splits, so an entry `key=a=b` yields three fields and
dictionary construction fails, while the identical fragment in the
`--parameters` string parses to the binding `key ↦ a=b`. -/
theorem claim_C10 (config : List (Str × Str)) (k a b : Str)
    (hk : '=' ∉ k) (ha : '=' ∉ a)
    (hsk : ';' ∉ k) (hsa : ';' ∉ a) (hsb : ';' ∉ b) :
    mergeOverride config (some (k ++ '=' :: (a ++ '=' :: b))) = .error () ∧
    parseParameters (some (k ++ '=' :: (a ++ '=' :: b))) =
      .ok (some [(k, a ++ '=' :: b)]) := by
  have hsemi : ';' ∉ k ++ '=' :: (a ++ '=' :: b) := by
    simp [List.mem_append, List.mem_cons, hsk, hsa, hsb]
  have hne : k ++ '=' :: (a ++ '=' :: b) ≠ [] := by simp
  have hsplit : pySplit ';' (k ++ '=' :: (a ++ '=' :: b)) =
      [k ++ '=' :: (a ++ '=' :: b)] :=
    pySplitAux_of_not_mem _ hsemi
  constructor
  · simp only [mergeOverride]
    rw [if_neg hne]
    unfold parseOverrideConfig
    rw [hsplit, List.map_singleton, pySplitMax_two_overfull hk ha]
    rfl
  · simp only [parseParameters, parseKVArg]
    rw [if_neg hne, hsplit, List.map_singleton, pySplitMax_one hk]
    rfl

/-- Witness for C10 at the fragment `key=a=b`. -/
theorem claim_C10_witness :
    mergeOverride [("host".toList, "h".toList)] (some "key=a=b".toList) =
      .error () ∧
    parseParameters (some "key=a=b".toList) =
      .ok (some [("key".toList, "a=b".toList)]) :=
  claim_C10 [("host".toList, "h".toList)] "key".toList "a".toList "b".toList
    (by decide) (by decide) (by decide) (by decide) (by decide)

/-- C5: merging the override-configuration string over a loaded
configuration succeeds for well-formed entries and yields a dictionary
in which every key named in the override string has the override value
and every other key keeps the configuration value. -/
theorem claim_C5 (config : List (Str × Str)) (p : Str × Str)
    (ps : List (Str × Str))
    (hmem : ∀ q ∈ p :: ps, '=' ∉ q.1 ∧ '=' ∉ q.2 ∧ ';' ∉ q.1 ∧ ';' ∉ q.2) :
    mergeOverride config
        (some (joinSep ';' ((p :: ps).map fun q => q.1 ++ '=' :: q.2))) =
      .ok (pyUpdate config (p :: ps)) ∧
    ∀ k, dLookup (pyUpdate config (p :: ps)) k =
      if k ∈ (p :: ps).map Prod.fst then dLookup (p :: ps) k
      else dLookup config k := by
  refine ⟨?_, fun k => dLookup_pyUpdate config (p :: ps) k⟩
  simp only [mergeOverride]
  rw [if_neg (joinSep_fragments_ne_nil p ps), parseOverrideConfig_joinSep p ps hmem]

/-- Witness for C5: overriding `host` leaves `port` untouched and
replaces `host`. -/
theorem claim_C5_witness :
    mergeOverride [("host".toList, "a".toList), ("port".toList, "80".toList)]
        (some "host=b".toList) =
      .ok (pyUpdate [("host".toList, "a".toList), ("port".toList, "80".toList)]
        [("host".toList, "b".toList)]) ∧
    ∀ k, dLookup (pyUpdate
        [("host".toList, "a".toList), ("port".toList, "80".toList)]
        [("host".toList, "b".toList)]) k =
      if k ∈ [("host".toList, "b".toList)].map Prod.fst
      then dLookup [("host".toList, "b".toList)] k
      else dLookup [("host".toList, "a".toList), ("port".toList, "80".toList)] k :=
  claim_C5 [("host".toList, "a".toList), ("port".toList, "80".toList)]
    ("host".toList, "b".toList) [] (by decide)

/-! ### Claims C9 and C8 -/

theorem replaceAux_single_not_mem (c : Char) :
    ∀ (fuel : Nat) (s : Str), s.length ≤ fuel → c ∉ replaceAux [c] [] fuel s
  | _, [], _ => by simp [replaceAux]
  | 0, x :: xs, h => by simp at h
  | fuel + 1, x :: xs, h => by
    have hlen : xs.length ≤ fuel := by simp only [List.length_cons] at h; omega
    by_cases hx : c = x
    · subst hx
      have hpre : [c].isPrefixOf (c :: xs) = true := by simp [List.isPrefixOf]
      simp only [replaceAux, hpre, if_true, List.length_cons, List.length_nil,
        List.nil_append]
      simpa using replaceAux_single_not_mem c fuel xs hlen
    · have hpre : [c].isPrefixOf (x :: xs) = false := by
        simp [List.isPrefixOf, hx]
      simp only [replaceAux, hpre]
      simp [hx, replaceAux_single_not_mem c fuel xs hlen]

/-- Removing the occurrences of a single character with an empty
replacement leaves no occurrence of that character. -/
theorem pyReplace_single_not_mem (c : Char) (s : Str) :
    c ∉ pyReplace s [c] [] := by
  rw [pyReplace, if_neg (by simp)]
  exact replaceAux_single_not_mem c s.length s le_rfl

/-- C9: for a truthy file-backed payload with substitution parameters,
the block reads the file's content, removes every newline character,
applies each substitution entry in dictionary order, and returns the
result as an inline payload (the file flag drops to `false`). -/
theorem claim_C9 (fs : Str → Str) (p sp : Str) (hp : p ≠ []) (hsp : sp ≠ [])
    (sd : List (Str × Str))
    (hparse : pyDict ((pySplit ';' sp).map (pySplit '=')) = some sd) :
    substBlock fs (some p) true (some sp) =
      .ok (some (applySubsts (pyDictItems sd) (pyReplace (fs p) ['\n'] [])),
        false) ∧
    '\n' ∉ pyReplace (fs p) ['\n'] [] := by
  refine ⟨?_, pyReplace_single_not_mem '\n' (fs p)⟩
  simp [substBlock, pyTruthy, hp, hsp, hparse]

/-- Witness for C9: a two-line XML file with a substitution `KEY=VAL`. -/
theorem claim_C9_witness :
    substBlock (fun _ => "<a>\nKEY</a>".toList) (some "body.xml".toList) true
        (some "KEY=VAL".toList) =
      .ok (some (applySubsts (pyDictItems [("KEY".toList, "VAL".toList)])
        (pyReplace "<a>\nKEY</a>".toList ['\n'] [])), false) ∧
    '\n' ∉ pyReplace "<a>\nKEY</a>".toList ['\n'] [] :=
  claim_C9 (fun _ => "<a>\nKEY</a>".toList) "body.xml".toList "KEY=VAL".toList
    (by decide) (by decide) [("KEY".toList, "VAL".toList)] (by decide)

/-- C8: when not muted, the summary lines (status, headers, and the
body when non-empty) all go to stdout exactly when `200 ≤ c < 300` and
all go to stderr otherwise; `ok` is exactly that numeric test; muting
suppresses the summary entirely. -/
theorem claim_C8 (status : Nat) (headersStr bodyText : String) :
    (ok status = true ↔ 200 ≤ status ∧ status < 300) ∧
    summaryLines false status headersStr bodyText ≠ [] ∧
    (∀ l ∈ summaryLines false status headersStr bodyText,
      l.1 = if ok status then Channel.stdout else Channel.stderr) ∧
    summaryLines true status headersStr bodyText = [] := by
  refine ⟨by simp [ok], ?_, ?_, rfl⟩
  · by_cases hb : bodyText = "" <;> simp [summaryLines, hb]
  · intro l hl
    simp only [summaryLines, Bool.false_eq_true, if_false] at hl
    rcases List.mem_append.mp hl with h | h
    · simp only [List.mem_cons, List.not_mem_nil, or_false] at h
      rcases h with h | h <;> subst h <;> rfl
    · by_cases hb : bodyText = ""
      · rw [if_neg (by simp [hb])] at h
        exact absurd h (List.not_mem_nil l)
      · rw [if_pos hb] at h
        rw [List.mem_singleton.mp h]

/-! ### Claim C2 -/

theorem comma_mem_joinSep (k0 g : Str) (gs : List Str) :
    ',' ∈ joinSep ',' (k0 :: g :: gs) := by
  rw [joinSep_cons₂]; simp

/-- C2 counterexample: a single absent name (no comma in the argument)
makes the loop iterate over the characters of the name, so requesting
`ETag` against a response whose only header is `T` prints the
unrequested entry `T: 1` instead of nothing. -/
theorem claim_C2_counterexample :
    headerKeysBlock (some "ETag".toList) [("T".toList, "1".toList)] =
      [("T".toList, "1".toList)] ∧
    headerKeysBlock (some "ETag".toList) [("T".toList, "1".toList)] ≠ [] ∧
    ("T".toList : Str) ≠ "ETag".toList := by
  refine ⟨by decide, by decide, by decide⟩

/-- C2 amended: with a comma-separated list of names the output is
exactly the requested names present in the response (case-insensitive),
in requested order; a single comma-free name yields its entry when
present, but when absent the loop falls through to iterating over the
characters of the name; with no response headers nothing is printed. -/
theorem claim_C2_amended (headers : List (Str × Str)) (hh : headers ≠ [])
    (k0 k1 : Str) (ks : List Str) (hne : ks ≠ [])
    (hnc : ∀ k ∈ k0 :: ks, ',' ∉ k) (hk1 : k1 ≠ []) (hnc1 : ',' ∉ k1) :
    headerKeysBlock (some (joinSep ',' (k0 :: ks))) headers =
      (k0 :: ks).filterMap (lookupLine headers) ∧
    headerKeysBlock (some k1) headers =
      (match lookupLine headers k1 with
       | some line => [line]
       | none => k1.filterMap fun c => lookupLine headers [c]) ∧
    headerKeysBlock (some k1) [] = [] ∧
    headerKeysBlock none headers = [] := by
  obtain ⟨g, gs, rfl⟩ : ∃ g gs, ks = g :: gs := by
    cases ks with
    | nil => exact absurd rfl hne
    | cons g gs => exact ⟨g, gs, rfl⟩
  have hcomma : ',' ∈ joinSep ',' (k0 :: g :: gs) := comma_mem_joinSep k0 g gs
  have hjne : joinSep ',' (k0 :: g :: gs) ≠ [] := by
    intro hnil
    rw [hnil] at hcomma
    exact List.not_mem_nil ',' hcomma
  refine ⟨?_, ?_, ?_, rfl⟩
  · simp only [headerKeysBlock]
    rw [if_neg (by simp [hjne, hh]), if_pos hcomma,
      pySplit_joinSep k0 (g :: gs) hnc]
  · simp only [headerKeysBlock]
    rw [if_neg (by simp [hk1, hh]), if_neg hnc1]
  · simp [headerKeysBlock]

/-- Witness for C2 amended: requesting `ETag,x-amz-request-id` against
a response carrying only `ETag` yields exactly the `ETag` entry, and a
single present name matches case-insensitively. -/
theorem claim_C2_amended_witness :
    headerKeysBlock (some (joinSep ',' ["ETag".toList, "x-amz-request-id".toList]))
        [("ETag".toList, "abc".toList)] =
      ["ETag".toList, "x-amz-request-id".toList].filterMap
        (lookupLine [("ETag".toList, "abc".toList)]) ∧
    headerKeysBlock (some "etag".toList) [("ETag".toList, "abc".toList)] =
      (match lookupLine [("ETag".toList, "abc".toList)] "etag".toList with
       | some line => [line]
       | none => "etag".toList.filterMap
           fun c => lookupLine [("ETag".toList, "abc".toList)] [c]) ∧
    headerKeysBlock (some "etag".toList) [] = [] ∧
    headerKeysBlock none [("ETag".toList, "abc".toList)] = [] :=
  claim_C2_amended [("ETag".toList, "abc".toList)] (by decide)
    "ETag".toList "etag".toList ["x-amz-request-id".toList] (by decide)
    (by decide) (by decide) (by decide)

/-! ### Claims C1 and C4 -/


/-- C1 counterexample: the body `not xml` is non-empty and not
well-formed XML, yet the query block fails with a parse error instead
of producing an empty sequence. -/
theorem claim_C1_counterexample :
    ("not xml".toList : Str) ≠ [] ∧
    fromstring "not xml".toList =
      .error "not well-formed: no element found" ∧
    xmlQueryBlock (some awsQuery) "not xml".toList =
      .error (.parseError "not well-formed: no element found") :=
  ⟨by decide, by rfl, by rfl⟩

/-- C1 amended: over a non-empty body, a parse failure of the body
propagates as a parse error (not an empty result); a query-compilation
failure over a well-formed body surfaces as a `QueryError`; and a
well-formed body with a valid query yields the matched text values —
the empty sequence when nothing matches. -/
theorem claim_C1_amended (q body : Str) (hq : q ≠ []) (hb : body ≠ []) :
    (∀ e, fromstring body = .error e →
      xmlQueryBlock (some q) body = .error (.parseError e)) ∧
    (∀ root e, fromstring body = .ok root → compilePath awsNs q = .error e →
      xmlQueryBlock (some q) body = .error (.queryError e)) ∧
    (∀ root steps, fromstring body = .ok root → compilePath awsNs q = .ok steps →
      xmlQueryBlock (some q) body =
        .ok ((evalPath steps [root]).map XElem.text)) := by
  refine ⟨?_, ?_, ?_⟩
  · intro e he
    simp only [xmlQueryBlock]
    rw [if_neg (by simp [hq, hb]), he]
  · intro root e hr he
    simp only [xmlQueryBlock]
    rw [if_neg (by simp [hq, hb]), hr, he]
  · intro root steps hr hs
    simp only [xmlQueryBlock]
    rw [if_neg (by simp [hq, hb]), hr, hs]

/-- Witness for C1 amended: a well-formed body with no matching nodes
yields the empty sequence. -/
theorem claim_C1_amended_witness :
    xmlQueryBlock (some awsQuery) "<a><b/></a>".toList =
      .ok ([] : List (Option Str)) :=
  (claim_C1_amended awsQuery "<a><b/></a>".toList (by decide) (by decide)).2.2
    (XElem.mk "a".toList [] none [XElem.mk "b".toList [] none []]) lbrSteps
    (by rfl) (by rfl)

/-! ### Claim C4: bucket listing -/


@[simp] theorem tag_mk (t : Str) (a : List (Str × Str)) (tx : Option Str)
    (ch : List XElem) : (XElem.mk t a tx ch).tag = t := rfl

@[simp] theorem text_mk (t : Str) (a : List (Str × Str)) (tx : Option Str)
    (ch : List XElem) : (XElem.mk t a tx ch).text = tx := rfl

@[simp] theorem children_mk (t : Str) (a : List (Str × Str)) (tx : Option Str)
    (ch : List XElem) : (XElem.mk t a tx ch).children = ch := rfl

theorem preorderL_append (l1 l2 : List XElem) :
    preorderL (l1 ++ l2) = preorderL l1 ++ preorderL l2 := by
  induction l1 with
  | nil => rfl
  | cons e es ih => simp [preorderL, ih]

theorem filter_bucketTag (names : List Str) :
    (preorderL (names.map bucketElem)).filter
      (fun d => d.tag == bucketTag) = names.map bucketElem := by
  induction names with
  | nil => rfl
  | cons n ns ih =>
    have h2 : (nameTag == bucketTag) = false := by decide
    have h3 : (creationTag == bucketTag) = false := by decide
    simp only [List.map_cons, preorderL, preorderE, bucketElem, tag_mk,
      List.filter_append, List.filter_cons, List.filter_nil, beq_self_eq_true,
      if_true, h2, h3, ih]
    simp

theorem flatMap_nameTag (names : List Str) :
    (names.map bucketElem).flatMap (childrenTagged nameTag) =
      names.map fun n => XElem.mk nameTag [] (some n) [] := by
  induction names with
  | nil => rfl
  | cons n ns ih =>
    have h3 : (creationTag == nameTag) = false := by decide
    simp only [List.map_cons, List.flatMap_cons, childrenTagged, bucketElem,
      children_mk, tag_mk, List.filter_cons, List.filter_nil,
      beq_self_eq_true, if_true, h3, ih]
    simp

/-- Evaluation of the compiled query over the bucket-listing tree. -/
theorem evalPath_lbrTree (names : List Str) :
    evalPath lbrSteps [lbrTree names] =
      names.map fun n => XElem.mk nameTag [] (some n) [] := by
  have hdesc : evalStep [lbrTree names] (Step.descendant bucketTag) =
      names.map bucketElem := by
    have h1 : (ownerTag == bucketTag) = false := by decide
    have h2 : (idTag == bucketTag) = false := by decide
    have h3 : (bucketsTag == bucketTag) = false := by decide
    simp only [evalStep, List.flatMap_cons, List.flatMap_nil, properDescendants,
      lbrTree, children_mk, preorderL, preorderE, List.filter_append,
      List.filter_cons, List.filter_nil, tag_mk, h1, h2, h3,
      Bool.false_eq_true, if_false, List.append_nil, List.nil_append]
    exact filter_bucketTag names
  show evalPath lbrSteps [lbrTree names] = _
  simp only [evalPath, lbrSteps, List.foldl_cons, List.foldl_nil]
  rw [show evalStep [lbrTree names] Step.self = [lbrTree names] from rfl, hdesc]
  simp only [evalStep]
  exact flatMap_nameTag names

/-- C4: the query `.//aws:Bucket/aws:Name` with `aws` bound to the S3
namespace compiles to self/descendant/child steps and, over a
`ListAllMyBucketsResult` document, returns the bucket names as text
values in document order; a concrete body parses and round-trips
through the whole query block. -/
theorem claim_C4 (names : List Str) :
    compilePath awsNs awsQuery = .ok lbrSteps ∧
    (evalPath lbrSteps [lbrTree names]).map XElem.text = names.map some ∧
    fromstring lbrBody =
      .ok (lbrTree ["uv-bucket-1".toList, "uv-bucket-2".toList]) ∧
    xmlQueryBlock (some awsQuery) lbrBody =
      .ok [some "uv-bucket-1".toList, some "uv-bucket-2".toList] := by
  refine ⟨by rfl, ?_, ?_, ?_⟩
  · rw [evalPath_lbrTree names, List.map_map]
    exact List.map_congr_left fun n _ => rfl
  · rfl
  · rfl

/-! ### Claims C6 and C7 (spec-modelled engine) -/

/-- C6: for a fixed RequestSpec, Credentials and date, two invocations
of the composed CanonicalRequestBuilder + SigningKeyDeriver +
RequestSigner pipeline on equal inputs yield byte-identical canonical
request, signing key and signature.  Modelled from the spec: the
`s3v4_rest` signing engine is not part of the checked tree. -/
theorem claim_C6 (cfg1 cfg2 : Config) (creds1 creds2 : Credentials)
    (d1 d2 : SigningDate) (s1 s2 : RequestSpec)
    (hc : cfg1 = cfg2) (hcr : creds1 = creds2) (hd : d1 = d2) (hs : s1 = s2) :
    canonicalRequest cfg1 s1 = canonicalRequest cfg2 s2 ∧
    signingKey creds1 d1 = signingKey creds2 d2 ∧
    signature cfg1 creds1 d1 s1 = signature cfg2 creds2 d2 s2 := by
  subst hc; subst hcr; subst hd; subst hs
  exact ⟨rfl, rfl, rfl⟩


/-- Witness for C6 at a concrete configuration, credentials, date and
request. -/
theorem claim_C6_witness :
    canonicalRequest cfg0 spec0 = canonicalRequest cfg0 spec0 ∧
    signingKey (credentialsOf cfg0) date0 = signingKey (credentialsOf cfg0) date0 ∧
    signature cfg0 (credentialsOf cfg0) date0 spec0 =
      signature cfg0 (credentialsOf cfg0) date0 spec0 :=
  claim_C6 cfg0 cfg0 (credentialsOf cfg0) (credentialsOf cfg0) date0 date0
    spec0 spec0 rfl rfl rfl rfl

/-- C7: a request dispatched with a proxy endpoint is transmitted to
the proxy address, while the signed host header, canonical request and
signature are identical to those of a dispatch to the configured
endpoint — all computed from the original endpoint, never from the
proxy.  Modelled from the spec (§4.4). -/
theorem claim_C7 (cfg : Config) (spec : RequestSpec) (date : SigningDate)
    (proxy : Str) :
    (send_s3_request cfg spec date (some proxy)).transmitUrl =
      proxy ++ canonicalURI spec ∧
    (send_s3_request cfg spec date none).transmitUrl =
      endpointOf cfg ++ canonicalURI spec ∧
    (send_s3_request cfg spec date (some proxy)).hostHeader = hostHeaderOf cfg ∧
    (send_s3_request cfg spec date (some proxy)).canonical =
      canonicalRequest cfg spec ∧
    (send_s3_request cfg spec date (some proxy)).sig =
      signature cfg (credentialsOf cfg) date spec ∧
    (send_s3_request cfg spec date (some proxy)).hostHeader =
      (send_s3_request cfg spec date none).hostHeader ∧
    (send_s3_request cfg spec date (some proxy)).canonical =
      (send_s3_request cfg spec date none).canonical ∧
    (send_s3_request cfg spec date (some proxy)).sig =
      (send_s3_request cfg spec date none).sig := by
  refine ⟨?_, ?_, ?_, ?_, ?_, ?_, ?_, ?_⟩ <;> simp only [send_s3_request]

end S3Rest
